import Mathlib

/-!
Verification development for the ESPink quote-display firmware
(`src/LaskaDisplay.ino`).  The definitions below are a shallow embedding of
the rotation engine: the shown-quote tracker, the cycle-boundary reset with
its carry-over exclusion, the two-pass streaming catalog reader, the
comma-separated persistence encoding, the button-wake re-arm computation and
the battery dispatch in `setup()`.  Machine integers are modelled as `Int`
and `Nat` (no overflow is reachable in the modelled quantities), Arduino
`String`s as `List Char`, and `random(0, n)` as an adversarially chosen
natural number taken modulo `n`.
-/
namespace LaskaDisplay

/-- Rotation and session state that the firmware keeps across activations:
`shownQuoteIds` (RAM copy of the NVS string `shown`), the RTC-retained
`lastCycleQuoteId` and `currentQuoteId`, and the NVS counter `totalCnt`. -/
structure RotState where
  shownQuoteIds : List Int
  lastCycleQuoteId : Int
  currentQuoteId : Int
  totalDisplayCount : Nat
deriving Repr, DecidableEq

/-- Embedding of `isQuoteShown` (LaskaDisplay.ino lines 893-898): a linear
scan of `shownQuoteIds` for `id`. -/
def isQuoteShown (shownQuoteIds : List Int) (id : Int) : Bool :=
  shownQuoteIds.contains id

/-- The unshown-candidate computation in `displayRandomQuote` (lines
921-926): keep every catalog id that is not in the shown list. -/
def computeUnshown (allQuoteIds shownQuoteIds : List Int) : List Int :=
  allQuoteIds.filter (fun id => !isQuoteShown shownQuoteIds id)

/-- Result of the cycle-boundary check in `displayRandomQuote` (lines
929-936): the candidate list, the updated state, and whether a reset fired. -/
structure ResetOutcome where
  unshown : List Int
  state : RotState
  didReset : Bool
deriving Repr, DecidableEq

/-- Embedding of lines 929-936 of `displayRandomQuote`: if every catalog id
is already shown, record `currentQuoteId` as `lastCycleQuoteId`, clear the
shown list (`clearShownQuotes`), and refill the candidates by re-filtering
the catalog against the now-empty shown list. -/
def cycleReset (allQuoteIds : List Int) (s : RotState) : ResetOutcome :=
  let unshown := computeUnshown allQuoteIds s.shownQuoteIds
  if unshown.isEmpty then
    { unshown := computeUnshown allQuoteIds []
      state := { s with lastCycleQuoteId := s.currentQuoteId, shownQuoteIds := [] }
      didReset := true }
  else
    { unshown := unshown, state := s, didReset := false }

/-- Embedding of lines 938-949 of `displayRandomQuote`: when
`lastCycleQuoteId >= 0` and more than one candidate remains, erase the first
occurrence of `lastCycleQuoteId` from the candidates and set
`lastCycleQuoteId` to `-1`; the clear happens whether or not the id was
actually present among the candidates. -/
def carryOverExclusion (unshown : List Int) (lastCycleQuoteId : Int) :
    List Int × Int :=
  if 0 ≤ lastCycleQuoteId ∧ 1 < unshown.length then
    (unshown.erase lastCycleQuoteId, -1)
  else
    (unshown, lastCycleQuoteId)

/-- The candidate pool that `random(0, unshown.size())` draws from in one
invocation of `displayRandomQuote` starting from state `s`: the unshown ids
after a possible cycle reset and after the carry-over exclusion. -/
def selectionPool (allQuoteIds : List Int) (s : RotState) : List Int :=
  let r := cycleReset allQuoteIds s
  (carryOverExclusion r.unshown r.state.lastCycleQuoteId).1

/-- Outcome of one selection-plus-commit step. -/
structure SelectOutcome where
  state : RotState
  selectedId : Int
  didReset : Bool
deriving Repr, DecidableEq

/-- One full selection followed by its commit, as performed by
`displayRandomQuote` (lines 914-975) when the fetch succeeds: cycle reset,
carry-over exclusion, random draw (`choice` is the value of
`random(0, unshown.size())`, modelled as an arbitrary natural reduced
modulo the pool size), then `markShown` (push + `saveShownQuotes`), the
`currentQuoteId` update and the `totalDisplayCount` increment. -/
def selectStep (allQuoteIds : List Int) (choice : Nat) (s : RotState) :
    SelectOutcome :=
  let r := cycleReset allQuoteIds s
  let pe := carryOverExclusion r.unshown r.state.lastCycleQuoteId
  let s2 := { r.state with lastCycleQuoteId := pe.2 }
  let selectedId := pe.1.getD (choice % pe.1.length) 0
  { state := { s2 with
      shownQuoteIds := s2.shownQuoteIds ++ [selectedId]
      currentQuoteId := selectedId
      totalDisplayCount := s2.totalDisplayCount + 1 }
    selectedId := selectedId
    didReset := r.didReset }

/-- Iterated selection-plus-commit, one step per entry of `choices`. -/
def runOutcomes (allQuoteIds : List Int) :
    List Nat → RotState → List SelectOutcome
  | [], _ => []
  | c :: cs, s =>
    let o := selectStep allQuoteIds c s
    o :: runOutcomes allQuoteIds cs o.state

/-! ### Catalog reader, pass 1: `scanQuoteIds` (lines 736-800) -/
/-- One element of the quotes array as seen by the pass-1 scanner: either an
object whose id-filtered `deserializeJson` succeeds and yields the value of
the `id` field (`0` when the field is missing), or an element on which the
parse fails. -/
inductive ScanElem where
  | obj (id : Int)
  | bad
deriving Repr, DecidableEq

/-- Abstraction of the quotes document for pass 1: whether `SD.open`
succeeds, whether `file.find` locates the `quotes` key and the `[` marker,
the sequence of array elements, and whether the element sequence is followed
by the terminating `]` (as opposed to end-of-file or trailing garbage). -/
structure ScanDoc where
  openOk : Bool
  hasQuotesKey : Bool
  hasArrayStart : Bool
  elems : List ScanElem
  terminated : Bool
deriving Repr, DecidableEq

/-- The element loop of `scanQuoteIds` (lines 757-795): parse one element;
any parse error breaks out of the loop (returning success iff some id was
already collected); a parsed id is recorded when non-zero; after the last
element the skip-to-separator step either finds `]` (immediate success) or
runs off the end of the file (success iff some id was collected); between
elements it consumes the comma. -/
def scanLoop : List ScanElem → Bool → List Int → Bool × List Int
  | [], _, acc => (!acc.isEmpty, acc)
  | ScanElem.bad :: _, _, acc => (!acc.isEmpty, acc)
  | [ScanElem.obj id], terminated, acc =>
    let acc2 := if id ≠ 0 then acc ++ [id] else acc
    if terminated then (true, acc2) else (!acc2.isEmpty, acc2)
  | ScanElem.obj id :: e :: rest, terminated, acc =>
    let acc2 := if id ≠ 0 then acc ++ [id] else acc
    scanLoop (e :: rest) terminated acc2

/-- Embedding of `scanQuoteIds` (lines 736-800): returns the success flag
and the collected id list (`allQuoteIds`). -/
def scanQuoteIds (d : ScanDoc) : Bool × List Int :=
  if ¬d.openOk then (false, [])
  else if ¬d.hasQuotesKey then (false, [])
  else if ¬d.hasArrayStart then (false, [])
  else scanLoop d.elems d.terminated []

/-! ### Catalog reader, pass 2: `getQuoteFromSD` (lines 803-843) -/
/-- A fully decoded quote record (`QuoteData` in the source, with Arduino
`String`s modelled as character lists). -/
structure QuoteData where
  id : Int
  text : List Char
  author : List Char
deriving Repr, DecidableEq

/-- One element of the quotes array as seen by the pass-2 fetcher: either a
full successful `deserializeJson` of the element, or a parse failure (which
the loop skips). -/
inductive FetchElem where
  | ok (q : QuoteData)
  | bad
deriving Repr, DecidableEq

/-- Abstraction of the quotes document for pass 2. -/
structure FetchDoc where
  openOk : Bool
  hasQuotesKey : Bool
  hasArrayStart : Bool
  elems : List FetchElem
deriving Repr, DecidableEq

/-- The element loop of `getQuoteFromSD` (lines 810-840): decode each
element fully; on success compare its id against the target and return the
record at the first exact match; parse failures are skipped; hitting the
array terminator or the end of the file returns failure. -/
def fetchLoop (targetId : Int) : List FetchElem → Option QuoteData
  | [] => none
  | FetchElem.ok q :: rest =>
    if q.id = targetId then some q else fetchLoop targetId rest
  | FetchElem.bad :: rest => fetchLoop targetId rest

/-- Embedding of `getQuoteFromSD` (lines 803-843). -/
def getQuoteFromSD (d : FetchDoc) (targetId : Int) : Option QuoteData :=
  if ¬d.openOk then none
  else if ¬d.hasQuotesKey then none
  else if ¬d.hasArrayStart then none
  else fetchLoop targetId d.elems

/-! ### Activation traces -/
/-- Observable actions of one activation, in program order. -/
inductive Event where
  | readBattery
  | haltNoWakeSources
  | audioReplay (id : Int)
  | errorDisplayed
  | catalogScanned (ids : List Int)
  | rotationLoaded (shown : List Int)
  | cycleResetEv
  | selected (id : Int)
  | fetchFailed (id : Int)
  | fetched (id : Int)
  | commit (id : Int)
  | rendered (id : Int)
  | deepSleep (durationSec : Nat) (timerArmed : Bool) (buttonArmed : Bool)
deriving Repr, DecidableEq

/-- Embedding of `displayRandomQuote` (lines 914-1084) as an event trace
plus the resulting rotation state.  In source order: empty-catalog guard,
unshown computation, cycle reset, carry-over exclusion, random draw,
`getQuoteFromSD` (an early return on failure), then the commit (push into
`shownQuoteIds`, `saveShownQuotes`, `currentQuoteId` update,
`totalDisplayCount` increment) and only after all of that the e-paper
rendering loop. -/
def displayRandomQuoteRun (allQuoteIds : List Int) (doc : FetchDoc)
    (choice : Nat) (s : RotState) : List Event × RotState :=
  if allQuoteIds.isEmpty then ([], s)
  else
    let r := cycleReset allQuoteIds s
    let pe := carryOverExclusion r.unshown r.state.lastCycleQuoteId
    let s2 := { r.state with lastCycleQuoteId := pe.2 }
    let selectedId := pe.1.getD (choice % pe.1.length) 0
    match getQuoteFromSD doc selectedId with
    | none =>
      ((if r.didReset then [Event.cycleResetEv] else []) ++
        [Event.selected selectedId, Event.fetchFailed selectedId], s2)
    | some q =>
      ((if r.didReset then [Event.cycleResetEv] else []) ++
        [Event.selected selectedId, Event.fetched selectedId,
         Event.commit q.id, Event.rendered q.id],
       { s2 with
          shownQuoteIds := s2.shownQuoteIds ++ [q.id]
          currentQuoteId := q.id
          totalDisplayCount := s2.totalDisplayCount + 1 })

/-! ### Persisted rotation encoding: `saveShownQuotes` / `loadShownQuotes` -/
/-- Decimal digit character for a value below ten. -/
def digitChar (n : Nat) : Char :=
  match n with
  | 0 => '0' | 1 => '1' | 2 => '2' | 3 => '3' | 4 => '4'
  | 5 => '5' | 6 => '6' | 7 => '7' | 8 => '8' | _ => '9'

/-- Numeric value of a decimal digit character, `none` on any other
character — the `c - '0'` idiom of C digit parsing. -/
def digitVal (c : Char) : Option Nat :=
  if '0' ≤ c ∧ c ≤ '9' then some (c.toNat - '0'.toNat) else none

/-- Decimal digit string of a natural number, most significant digit
first — the digit sequence produced by Arduino `String(int)` for a
non-negative value. -/
def natToDigits (n : Nat) : List Char :=
  if n < 10 then [digitChar n]
  else natToDigits (n / 10) ++ [digitChar (n % 10)]
termination_by n
decreasing_by
  exact Nat.div_lt_self (by omega) (by omega)

/-- Arduino `String(int)`: decimal rendering with a leading minus sign for
negative values. -/
def intToStr (i : Int) : List Char :=
  if i < 0 then '-' :: natToDigits i.natAbs else natToDigits i.toNat

/-- Embedding of `saveShownQuotes` (lines 875-885): join the decimal
renderings of the shown ids with single commas (the loop prepends a comma
before every entry except the first), with no surrounding whitespace and no
trailing comma. -/
def saveShownQuotes (shownQuoteIds : List Int) : List Char :=
  List.intercalate [','] (shownQuoteIds.map intToStr)

/-- Digit-accumulation loop of `atol`: consume decimal digits, stopping at
the first non-digit character. -/
def atolDigits : List Char → Nat → Nat
  | [], acc => acc
  | c :: cs, acc =>
    match digitVal c with
    | some d => atolDigits cs (acc * 10 + d)
    | none => acc

/-- Whitespace as skipped by `atol`. -/
def isSpaceChar (c : Char) : Bool :=
  c == ' ' || c == '\t' || c == '\n' || c == '\r'

/-- Arduino `String.toInt` (an `atol` wrapper): skip leading whitespace,
read an optional sign, then decimal digits; yields `0` when no digit
follows. -/
def strToInt (s : List Char) : Int :=
  match s.dropWhile isSpaceChar with
  | [] => 0
  | c :: rest =>
    if c = '-' then -(atolDigits rest 0 : Int)
    else if c = '+' then (atolDigits rest 0 : Int)
    else (atolDigits (c :: rest) 0 : Int)

/-- Per-segment body of the `loadShownQuotes` loop (lines 861-872): skip
empty segments; parse with `toInt`; keep the value when it is non-zero or
the segment is literally `"0"`. -/
def parseSegment (seg : List Char) : Option Int :=
  if seg.isEmpty then none
  else
    let id := strToInt seg
    if id ≠ 0 ∨ seg = ['0'] then some id else none

/-- Embedding of `loadShownQuotes` (lines 847-873): an empty encoding yields
the empty list; otherwise the string is cut at every comma and each
non-empty segment is parsed by `parseSegment`, in order. -/
def loadShownQuotes (shown : List Char) : List Int :=
  if shown.isEmpty then []
  else (shown.splitOn ',').filterMap parseSegment

/-! ### Session state machine: `setup()` (lines 594-727) -/
/-- `REFRESH_INTERVAL` (line 70): 24 hours, in seconds. -/
def REFRESH_INTERVAL : Nat := 24 * 60 * 60

/-- `BAT_CRITICAL` (line 67), in volts; voltages are modelled as exact
rationals, which is faithful for the threshold comparisons the control flow
performs. -/
def BAT_CRITICAL : ℚ := 3.2

/-- The button-wake re-arm computation of `setup()` (lines 641-654):
`remainingSec` is `nextQuoteEpoch - now` when that is positive and `0`
otherwise, and any remainder below the 60-second floor is replaced by the
full refresh interval. -/
def buttonWakeRemaining (now nextQuoteEpoch : Int) : Nat :=
  let remainingSec : Nat :=
    if now < nextQuoteEpoch then (nextQuoteEpoch - now).toNat else 0
  if remainingSec < 60 then REFRESH_INTERVAL else remainingSec

/-- Wake cause as classified at lines 602-615. -/
inductive WakeReason where
  | ext0
  | timer
  | powerOn
deriving Repr, DecidableEq

/-- RTC-retained session state (lines 75-77): `nextQuoteEpoch`,
`currentQuoteId`, `lastCycleQuoteId`; all zero (resp. `-1`) after a cold
power-on. -/
structure SessionState where
  nextQuoteEpoch : Int
  currentQuoteId : Int
  lastCycleQuoteId : Int
deriving Repr, DecidableEq

/-- NVS-persisted state: the `shown` encoding and the `totalCnt` counter. -/
structure PersistedState where
  shownEncoding : List Char
  totalCnt : Nat
deriving Repr, DecidableEq

/-- Environment of one activation: wake cause, battery reading, current
time, SD availability, the catalog document as seen by the two reader
passes, the random draw, and whether the stored build id differs from the
running one. -/
structure SetupEnv where
  wakeReason : WakeReason
  batteryVoltage : ℚ
  now : Int
  sdOk : Bool
  scanDoc : ScanDoc
  fetchDoc : FetchDoc
  choice : Nat
  buildChanged : Bool
deriving Repr, DecidableEq

/-- Embedding of `setup()` (lines 594-727) as an activation trace.  The
battery is read before anything that touches the catalog reader, rotation
tracker or selection logic; a reading above the 1.0 V battery-present floor
but below `BAT_CRITICAL` halts with every wake source disabled
(`showLowBatteryAndHalt`, lines 366-412).  A button wake replays audio for
the retained `currentQuoteId` and re-arms `buttonWakeRemaining` without
touching rotation state.  Otherwise a build-id mismatch first clears the
counter, the shown encoding and the carry-over id (`checkNewCodeUpload`,
lines 281-312); SD or scan failure shows an error and still arms the full
interval; a successful scan loads the shown-set and runs
`displayRandomQuote`, and every non-halt path ends in a deep sleep with both
the timer and the button wake armed (`cleanupAndSleep`, lines 555-583). -/
def setupRun (env : SetupEnv) (sess : SessionState) (pers : PersistedState) :
    List Event :=
  Event.readBattery ::
  (if 1 < env.batteryVoltage ∧ env.batteryVoltage < BAT_CRITICAL then
    [Event.haltNoWakeSources]
  else if env.wakeReason = WakeReason.ext0 then
    (if env.sdOk then [Event.audioReplay sess.currentQuoteId] else []) ++
    [Event.deepSleep (buttonWakeRemaining env.now sess.nextQuoteEpoch)
      true true]
  else
    let pers2 : PersistedState :=
      if env.buildChanged then { shownEncoding := [], totalCnt := 0 } else pers
    let lastCycle2 : Int :=
      if env.buildChanged then -1 else sess.lastCycleQuoteId
    if ¬env.sdOk then
      [Event.errorDisplayed, Event.deepSleep REFRESH_INTERVAL true true]
    else
      match scanQuoteIds env.scanDoc with
      | (false, _) =>
        [Event.errorDisplayed, Event.deepSleep REFRESH_INTERVAL true true]
      | (true, ids) =>
        let shown := loadShownQuotes pers2.shownEncoding
        Event.catalogScanned ids :: Event.rotationLoaded shown ::
        (displayRandomQuoteRun ids env.fetchDoc env.choice
          ⟨shown, lastCycle2, sess.currentQuoteId, pers2.totalCnt⟩).1 ++
        [Event.deepSleep REFRESH_INTERVAL true true])

/-- Environment of the C8 counterexample activation: 0.5 V battery reading,
timer wake, working SD card, one-quote catalog. -/
def lowBatteryEnv : SetupEnv :=
  ⟨WakeReason.timer, 1 / 2, 0, true,
    ⟨true, true, true, [ScanElem.obj 1], true⟩,
    ⟨true, true, true, []⟩, 0, false⟩

theorem computeUnshown_nil (allQuoteIds : List Int) :
    computeUnshown allQuoteIds [] = allQuoteIds := by
  simp [computeUnshown, isQuoteShown]

theorem mem_computeUnshown {allQuoteIds shownQuoteIds : List Int} {x : Int} :
    x ∈ computeUnshown allQuoteIds shownQuoteIds ↔
      x ∈ allQuoteIds ∧ x ∉ shownQuoteIds := by
  simp [computeUnshown, isQuoteShown, List.mem_filter]

theorem carryOverExclusion_subset (unshown : List Int) (lc : Int) :
    (carryOverExclusion unshown lc).1 ⊆ unshown := by
  unfold carryOverExclusion
  split
  · exact fun x hx => List.mem_of_mem_erase hx
  · exact fun x hx => hx

theorem carryOverExclusion_ne_nil {unshown : List Int} (lc : Int)
    (h : unshown ≠ []) : (carryOverExclusion unshown lc).1 ≠ [] := by
  unfold carryOverExclusion
  split
  · rename_i hg
    have hlen : 1 < unshown.length := hg.2
    by_cases hm : lc ∈ unshown
    · have h1 : (unshown.erase lc).length = unshown.length - 1 :=
        List.length_erase_of_mem hm
      have : 0 < (unshown.erase lc).length := by omega
      exact List.ne_nil_of_length_pos this
    · rw [List.erase_of_not_mem hm]; exact h
  · exact h

theorem getD_mem {l : List Int} (h : l ≠ []) (n : Nat) :
    l.getD (n % l.length) 0 ∈ l := by
  have hlen : 0 < l.length := List.length_pos.mpr h
  have hlt : n % l.length < l.length := Nat.mod_lt _ hlen
  rw [List.getD_eq_getElem l 0 hlt]
  exact List.getElem_mem hlt

theorem selectionPool_mem {allQuoteIds : List Int} {s : RotState} {x : Int}
    (hx : x ∈ selectionPool allQuoteIds s) :
    x ∈ (cycleReset allQuoteIds s).unshown :=
  carryOverExclusion_subset _ _ hx

theorem cycleReset_not_covered {allQuoteIds : List Int} {s : RotState}
    (h : computeUnshown allQuoteIds s.shownQuoteIds ≠ []) :
    cycleReset allQuoteIds s =
      { unshown := computeUnshown allQuoteIds s.shownQuoteIds
        state := s, didReset := false } := by
  unfold cycleReset
  simp [List.isEmpty_iff, h]

theorem cycleReset_covered {allQuoteIds : List Int} {s : RotState}
    (h : computeUnshown allQuoteIds s.shownQuoteIds = []) :
    cycleReset allQuoteIds s =
      { unshown := allQuoteIds
        state := { s with lastCycleQuoteId := s.currentQuoteId,
                          shownQuoteIds := [] }
        didReset := true } := by
  unfold cycleReset
  simp [List.isEmpty_iff, h, computeUnshown_nil]

theorem selectionPool_ne_nil {allQuoteIds : List Int} (s : RotState)
    (h : allQuoteIds ≠ []) : selectionPool allQuoteIds s ≠ [] := by
  unfold selectionPool
  by_cases hcov : computeUnshown allQuoteIds s.shownQuoteIds = []
  · rw [cycleReset_covered hcov]
    exact carryOverExclusion_ne_nil _ h
  · rw [cycleReset_not_covered hcov]
    exact carryOverExclusion_ne_nil _ hcov

theorem selectStep_selectedId_mem_pool (allQuoteIds : List Int) (choice : Nat)
    (s : RotState) (h : allQuoteIds ≠ []) :
    (selectStep allQuoteIds choice s).selectedId ∈ selectionPool allQuoteIds s := by
  have hpool := @selectionPool_ne_nil allQuoteIds s h
  unfold selectStep
  exact getD_mem hpool choice

theorem selectStep_not_covered (allQuoteIds : List Int) (choice : Nat)
    (s : RotState) (h : computeUnshown allQuoteIds s.shownQuoteIds ≠ []) :
    (selectStep allQuoteIds choice s).didReset = false ∧
    (selectStep allQuoteIds choice s).selectedId ∈ allQuoteIds ∧
    (selectStep allQuoteIds choice s).selectedId ∉ s.shownQuoteIds ∧
    (selectStep allQuoteIds choice s).state.shownQuoteIds
      = s.shownQuoteIds ++ [(selectStep allQuoteIds choice s).selectedId] := by
  have hids : allQuoteIds ≠ [] := by
    intro hnil
    exact h (by simp [computeUnshown, hnil])
  have hmem := selectStep_selectedId_mem_pool allQuoteIds choice s hids
  have hmem2 : (selectStep allQuoteIds choice s).selectedId ∈
      (cycleReset allQuoteIds s).unshown := selectionPool_mem hmem
  rw [cycleReset_not_covered h] at hmem2
  have hmem3 := mem_computeUnshown.mp hmem2
  refine ⟨?_, hmem3.1, hmem3.2, ?_⟩
  · unfold selectStep
    rw [cycleReset_not_covered h]
  · unfold selectStep
    rw [cycleReset_not_covered h]

theorem selectStep_covered (allQuoteIds : List Int) (choice : Nat)
    (s : RotState) (h : computeUnshown allQuoteIds s.shownQuoteIds = []) :
    (selectStep allQuoteIds choice s).didReset = true := by
  unfold selectStep
  rw [cycleReset_covered h]

theorem runOutcomes_length (allQuoteIds : List Int) (choices : List Nat)
    (s : RotState) :
    (runOutcomes allQuoteIds choices s).length = choices.length := by
  induction choices generalizing s with
  | nil => rfl
  | cons c cs ih => simp [runOutcomes, ih]

theorem covered_of_computeUnshown_nil {allQuoteIds shownQuoteIds : List Int}
    (h : computeUnshown allQuoteIds shownQuoteIds = []) :
    ∀ x ∈ allQuoteIds, x ∈ shownQuoteIds := by
  intro x hx
  by_contra hmem
  have : x ∈ computeUnshown allQuoteIds shownQuoteIds :=
    mem_computeUnshown.mpr ⟨hx, hmem⟩
  rw [h] at this
  exact absurd this (List.not_mem_nil x)

/-- Invariant of the selection loop: while the shown list is duplicate-free
and contained in the catalog, the next
`allQuoteIds.toFinset.card - shown.length` steps never reset, pick pairwise
distinct ids outside the shown list, and the step right after those (the
first step at which a repeat becomes possible) fires the cycle reset. -/
theorem run_inv (allQuoteIds : List Int) :
    ∀ (choices : List Nat) (s : RotState),
    s.shownQuoteIds.Nodup → (∀ x ∈ s.shownQuoteIds, x ∈ allQuoteIds) →
    ∀ r : Nat, r = allQuoteIds.toFinset.card - s.shownQuoteIds.length →
    r ≤ choices.length →
    (s.shownQuoteIds ++
      ((runOutcomes allQuoteIds choices s).take r).map
        SelectOutcome.selectedId).Nodup ∧
    (∀ x ∈ ((runOutcomes allQuoteIds choices s).take r).map
        SelectOutcome.selectedId, x ∈ allQuoteIds) ∧
    (∀ o ∈ (runOutcomes allQuoteIds choices s).take r, o.didReset = false) ∧
    (∀ h : r < (runOutcomes allQuoteIds choices s).length,
        ((runOutcomes allQuoteIds choices s).get ⟨r, h⟩).didReset = true) := by
  intro choices
  induction choices with
  | nil =>
    intro s hnd hsub r hr hrle
    have hr0 : r = 0 := Nat.le_zero.mp hrle
    subst hr0
    refine ⟨by simpa using hnd, by simp, by simp, ?_⟩
    intro h
    simp [runOutcomes] at h
  | cons c cs ih =>
    intro s hnd hsub r hr hrle
    by_cases hcov : computeUnshown allQuoteIds s.shownQuoteIds = []
    · -- every catalog id is already shown: r = 0 and the next step resets
      have hall := covered_of_computeUnshown_nil hcov
      have hsubF : allQuoteIds.toFinset ⊆ s.shownQuoteIds.toFinset := by
        intro x hx
        exact List.mem_toFinset.mpr (hall x (List.mem_toFinset.mp hx))
      have hcard : allQuoteIds.toFinset.card ≤ s.shownQuoteIds.length :=
        le_trans (Finset.card_le_card hsubF) (List.toFinset_card_le _)
      have hr0 : r = 0 := by omega
      subst hr0
      refine ⟨by simpa using hnd, by simp, by simp, ?_⟩
      intro h
      have : (runOutcomes allQuoteIds (c :: cs) s).get ⟨0, h⟩
          = selectStep allQuoteIds c s := rfl
      rw [this]
      exact selectStep_covered allQuoteIds c s hcov
    · -- some id is still unshown: the step picks a fresh id
      obtain ⟨hreset, hselmem, hselnot, hshown'⟩ :=
        selectStep_not_covered allQuoteIds c s hcov
      set o := selectStep allQuoteIds c s with ho
      -- shown is a strict subset of the catalog ids, so r ≥ 1
      obtain ⟨y, hy⟩ := List.exists_mem_of_ne_nil _ hcov
      have hymem := mem_computeUnshown.mp hy
      have hstrict : s.shownQuoteIds.toFinset ⊂ allQuoteIds.toFinset := by
        constructor
        · intro x hx
          exact List.mem_toFinset.mpr (hsub x (List.mem_toFinset.mp hx))
        · intro hback
          exact hymem.2 (List.mem_toFinset.mp (hback (List.mem_toFinset.mpr hymem.1)))
      have hlencard : s.shownQuoteIds.toFinset.card = s.shownQuoteIds.length :=
        List.toFinset_card_of_nodup hnd
      have hlt : s.shownQuoteIds.length < allQuoteIds.toFinset.card := by
        have := Finset.card_lt_card hstrict
        omega
      have hrpos : 1 ≤ r := by omega
      obtain ⟨r', hr'⟩ : ∃ r', r = r' + 1 := ⟨r - 1, by omega⟩
      subst hr'
      have hnd' : o.state.shownQuoteIds.Nodup := by
        rw [hshown']
        simp [List.nodup_append, hnd, hselnot]
      have hsub' : ∀ x ∈ o.state.shownQuoteIds, x ∈ allQuoteIds := by
        rw [hshown']
        intro x hx
        rcases List.mem_append.mp hx with hx | hx
        · exact hsub x hx
        · rw [List.mem_singleton.mp hx]; exact hselmem
      have hlen' : o.state.shownQuoteIds.length = s.shownQuoteIds.length + 1 := by
        rw [hshown']; simp
      have hr'eq : r' = allQuoteIds.toFinset.card - o.state.shownQuoteIds.length := by
        omega
      have hr'le : r' ≤ cs.length := by
        simp at hrle
        omega
      obtain ⟨ih1, ih2, ih3, ih4⟩ := ih o.state hnd' hsub' r' hr'eq hr'le
      have hout : runOutcomes allQuoteIds (c :: cs) s
          = o :: runOutcomes allQuoteIds cs o.state := rfl
      refine ⟨?_, ?_, ?_, ?_⟩
      · rw [hout]
        simp only [List.take_succ_cons, List.map_cons]
        have : s.shownQuoteIds ++ o.selectedId ::
            ((runOutcomes allQuoteIds cs o.state).take r').map
              SelectOutcome.selectedId
            = (s.shownQuoteIds ++ [o.selectedId]) ++
            ((runOutcomes allQuoteIds cs o.state).take r').map
              SelectOutcome.selectedId := by
          simp
        rw [this, ← hshown']
        exact ih1
      · rw [hout]
        simp only [List.take_succ_cons, List.map_cons]
        intro x hx
        rcases List.mem_cons.mp hx with hx | hx
        · rw [hx]; exact hselmem
        · exact ih2 x hx
      · rw [hout]
        simp only [List.take_succ_cons]
        intro a ha
        rcases List.mem_cons.mp ha with ha | ha
        · rw [ha]; exact hreset
        · exact ih3 a ha
      · rw [hout]
        intro h
        have hlt' : r' < (runOutcomes allQuoteIds cs o.state).length := by
          simp at h
          omega
        have : (o :: runOutcomes allQuoteIds cs o.state).get ⟨r' + 1, by simpa using h⟩
            = (runOutcomes allQuoteIds cs o.state).get ⟨r', hlt'⟩ := rfl
        rw [this]
        exact ih4 hlt'

/-- C1: starting from an empty shown-set and repeatedly running one selection
followed by its commit, every distinct catalog id is selected exactly once
(the first `allQuoteIds.toFinset.card` selections are pairwise distinct and
their set is exactly the set of catalog ids) before any id is selected a
second time; none of those steps fires a cycle reset, and the very next step
— the first one at which a repeat becomes possible — is a cycle boundary
that clears the shown-set. -/
theorem C1_coverage_before_repeat (allQuoteIds : List Int)
    (hids : allQuoteIds ≠ []) (choices : List Nat) (s : RotState)
    (hshown : s.shownQuoteIds = [])
    (hlen : allQuoteIds.toFinset.card ≤ choices.length) :
    (((runOutcomes allQuoteIds choices s).take allQuoteIds.toFinset.card).map
        SelectOutcome.selectedId).Nodup ∧
    (((runOutcomes allQuoteIds choices s).take allQuoteIds.toFinset.card).map
        SelectOutcome.selectedId).toFinset = allQuoteIds.toFinset ∧
    (∀ o ∈ (runOutcomes allQuoteIds choices s).take allQuoteIds.toFinset.card,
        o.didReset = false) ∧
    (∀ h : allQuoteIds.toFinset.card < (runOutcomes allQuoteIds choices s).length,
        ((runOutcomes allQuoteIds choices s).get
          ⟨allQuoteIds.toFinset.card, h⟩).didReset = true) := by
  have hr : allQuoteIds.toFinset.card
      = allQuoteIds.toFinset.card - s.shownQuoteIds.length := by
    rw [hshown]; rfl
  obtain ⟨h1, h2, h3, h4⟩ := run_inv allQuoteIds choices s
    (by rw [hshown]; exact List.nodup_nil)
    (by rw [hshown]; intro x hx; exact absurd hx (List.not_mem_nil x))
    allQuoteIds.toFinset.card hr hlen
  rw [hshown] at h1
  simp only [List.nil_append] at h1
  refine ⟨h1, ?_, h3, h4⟩
  have hlensel :
      (((runOutcomes allQuoteIds choices s).take allQuoteIds.toFinset.card).map
        SelectOutcome.selectedId).length = allQuoteIds.toFinset.card := by
    rw [List.length_map, List.length_take, runOutcomes_length]
    omega
  have hsubF :
      (((runOutcomes allQuoteIds choices s).take allQuoteIds.toFinset.card).map
        SelectOutcome.selectedId).toFinset ⊆ allQuoteIds.toFinset := by
    intro x hx
    exact List.mem_toFinset.mpr (h2 x (List.mem_toFinset.mp hx))
  refine Finset.eq_of_subset_of_card_le hsubF ?_
  rw [List.toFinset_card_of_nodup h1, hlensel]

/-- Closed witness for C1 on the catalog `[10, 20, 30]`: three steps from an
empty shown-set select all three ids with no duplicate and no reset, and the
fourth step fires the cycle reset. -/
theorem C1_coverage_before_repeat_witness :
    (((runOutcomes [10, 20, 30] [0, 0, 0, 0] ⟨[], -1, 0, 0⟩).take 3).map
        SelectOutcome.selectedId).Nodup ∧
    (((runOutcomes [10, 20, 30] [0, 0, 0, 0] ⟨[], -1, 0, 0⟩).take 3).map
        SelectOutcome.selectedId).toFinset = ([10, 20, 30] : List Int).toFinset := by
  have h := C1_coverage_before_repeat [10, 20, 30] (by decide) [0, 0, 0, 0]
    ⟨[], -1, 0, 0⟩ rfl (by decide)
  have hcard : ([10, 20, 30] : List Int).toFinset.card = 3 := by decide
  rw [hcard] at h
  exact ⟨h.1, h.2.1⟩

/-- C2: at a cycle boundary of a catalog with more than one id, the recorded
carry-over id (`currentQuoteId`, non-negative for real catalogs) is removed
from the candidate pool of the very next selection, and `lastCycleQuoteId`
is cleared to `-1` in that same step whether or not the id was actually
present among the candidates; once cleared, no later selection applies any
exclusion, and a candidate pool of exactly one element never has the
exclusion applied to it. -/
theorem C2_carry_over_single_use (allQuoteIds : List Int) (choice : Nat)
    (s : RotState) (hlen : 1 < allQuoteIds.length)
    (hboundary : computeUnshown allQuoteIds s.shownQuoteIds = [])
    (hcur : 0 ≤ s.currentQuoteId) :
    selectionPool allQuoteIds s = allQuoteIds.erase s.currentQuoteId ∧
    (selectStep allQuoteIds choice s).state.lastCycleQuoteId = -1 ∧
    (∀ (ids2 : List Int) (s2 : RotState), s2.lastCycleQuoteId = -1 →
        computeUnshown ids2 s2.shownQuoteIds ≠ [] →
        selectionPool ids2 s2 = computeUnshown ids2 s2.shownQuoteIds) ∧
    (∀ (u : List Int) (lc : Int), u.length = 1 →
        carryOverExclusion u lc = (u, lc)) := by
  refine ⟨?_, ?_, ?_, ?_⟩
  · unfold selectionPool
    rw [cycleReset_covered hboundary]
    simp [carryOverExclusion, hcur, hlen]
  · unfold selectStep
    rw [cycleReset_covered hboundary]
    simp [carryOverExclusion, hcur, hlen]
  · intro ids2 s2 hlc hne
    unfold selectionPool
    rw [cycleReset_not_covered hne]
    simp [carryOverExclusion, hlc]
  · intro u lc hu
    unfold carryOverExclusion
    rw [hu]
    simp

/-- Closed witness for C2: catalog `[1, 2]` with both ids shown and
`currentQuoteId = 1` is at a cycle boundary; the next selection pool is
`[2]` and the carry-over slot is cleared to `-1`. -/
theorem C2_carry_over_single_use_witness :
    selectionPool [1, 2] ⟨[1, 2], -1, 1, 0⟩ = [2] ∧
    (selectStep [1, 2] 0 ⟨[1, 2], -1, 1, 0⟩).state.lastCycleQuoteId = -1 := by
  have h := C2_carry_over_single_use [1, 2] 0 ⟨[1, 2], -1, 1, 0⟩
    (by decide) (by decide) (by decide)
  refine ⟨?_, h.2.1⟩
  rw [h.1]
  decide

/-- C7: with catalog `[1, 2, 3]` and the stale persisted shown-set
`[1, 2, 4]`, the effective unshown candidate set computed before selection
is exactly `[3]`; it is non-empty and no cycle reset fires. -/
theorem C7_stale_shown_ids :
    computeUnshown [1, 2, 3] [1, 2, 4] = [3] ∧
    computeUnshown [1, 2, 3] [1, 2, 4] ≠ [] ∧
    (cycleReset [1, 2, 3] ⟨[1, 2, 4], -1, 2, 0⟩).didReset = false := by
  decide

theorem scanLoop_false_nil :
    ∀ (elems : List ScanElem) (terminated : Bool) (acc : List Int),
    (scanLoop elems terminated acc).1 = false →
    (scanLoop elems terminated acc).2 = [] := by
  intro elems
  induction elems with
  | nil =>
    intro t acc h
    simp only [scanLoop, Bool.not_eq_false'] at h ⊢
    exact List.isEmpty_iff.mp h
  | cons e rest ih =>
    intro t acc h
    cases e with
    | bad =>
      simp only [scanLoop, Bool.not_eq_false'] at h ⊢
      exact List.isEmpty_iff.mp h
    | obj id =>
      cases rest with
      | nil =>
        cases t with
        | true => simp [scanLoop] at h
        | false =>
          simp only [scanLoop] at h ⊢
          simp only [Bool.false_eq_true, if_false, Bool.not_eq_false'] at h ⊢
          exact List.isEmpty_iff.mp h
      | cons e2 rest2 =>
        simp only [scanLoop] at h ⊢
        exact ih t _ h

theorem scanLoop_zero_not_mem :
    ∀ (elems : List ScanElem) (terminated : Bool) (acc : List Int),
    (0 : Int) ∉ acc → (0 : Int) ∉ (scanLoop elems terminated acc).2 := by
  intro elems
  induction elems with
  | nil => intro t acc h; simpa [scanLoop] using h
  | cons e rest ih =>
    intro t acc h
    have hacc2 : ∀ id : Int,
        (0 : Int) ∉ (if id ≠ 0 then acc ++ [id] else acc) := by
      intro id
      by_cases hid : id = 0
      · simp [hid, h]
      · simp [hid, h]
        omega
    cases e with
    | bad => simpa [scanLoop] using h
    | obj id =>
      cases rest with
      | nil =>
        simp only [scanLoop]
        by_cases ht : t
        · simpa [ht] using hacc2 id
        · simpa [ht] using hacc2 id
      | cons e2 rest2 =>
        simp only [scanLoop]
        exact ih t _ (hacc2 id)

/-- C4 counterexample: a well-formed document whose array holds a single
element with `id = 0` (skipped, so zero identifiers are produced) still
reaches the terminating `]`, and `scanQuoteIds` reports success — refuting
the claim that zero identifiers always yields an error. -/
theorem C4_zero_ids_success_counterexample :
    scanQuoteIds ⟨true, true, true, [ScanElem.obj 0], true⟩ = (true, []) := by
  decide

/-- C4 (amended): the identifier scan reports success whenever at least one
identifier is produced, even if trailing elements are malformed or
incomplete, and it reports an error only when it produced zero identifiers
(reaching the terminating `]` after skipping only zero-id elements is the
one way to succeed with zero identifiers). -/
theorem C4_scan_error_only_when_empty (d : ScanDoc) :
    ((scanQuoteIds d).2 ≠ [] → (scanQuoteIds d).1 = true) ∧
    ((scanQuoteIds d).1 = false → (scanQuoteIds d).2 = []) := by
  have hmain : (scanQuoteIds d).1 = false → (scanQuoteIds d).2 = [] := by
    unfold scanQuoteIds
    by_cases h1 : d.openOk
    · by_cases h2 : d.hasQuotesKey
      · by_cases h3 : d.hasArrayStart
        · simp only [h1, h2, h3, not_true, if_false]
          exact scanLoop_false_nil d.elems d.terminated []
        · simp [h3]
      · simp [h2]
    · simp [h1]
  refine ⟨?_, hmain⟩
  intro hne
  by_contra hfail
  have : (scanQuoteIds d).1 = false := by
    revert hfail
    cases (scanQuoteIds d).1 <;> simp
  exact hne (hmain this)

/-- Closed witness for the amended C4: one good element followed by a
malformed tail still scans successfully. -/
theorem C4_scan_error_only_when_empty_witness :
    (scanQuoteIds ⟨true, true, true, [ScanElem.obj 5, ScanElem.bad], false⟩).1
      = true :=
  (C4_scan_error_only_when_empty
    ⟨true, true, true, [ScanElem.obj 5, ScanElem.bad], false⟩).1 (by decide)

theorem fetchLoop_none_of_absent (targetId : Int) :
    ∀ elems : List FetchElem,
    (∀ q : QuoteData, FetchElem.ok q ∈ elems → q.id ≠ targetId) →
    fetchLoop targetId elems = none := by
  intro elems
  induction elems with
  | nil => intro _; rfl
  | cons e rest ih =>
    intro h
    cases e with
    | ok q =>
      have hq : q.id ≠ targetId := h q (List.mem_cons_self _ _)
      simp only [fetchLoop, if_neg hq]
      exact ih fun q2 hq2 => h q2 (List.mem_cons_of_mem _ hq2)
    | bad =>
      simp only [fetchLoop]
      exact ih fun q2 hq2 => h q2 (List.mem_cons_of_mem _ hq2)

theorem fetchLoop_some (targetId : Int) :
    ∀ (elems : List FetchElem) (q : QuoteData),
    fetchLoop targetId elems = some q →
    q.id = targetId ∧ FetchElem.ok q ∈ elems := by
  intro elems
  induction elems with
  | nil => intro q h; exact absurd h (by simp [fetchLoop])
  | cons e rest ih =>
    intro q h
    cases e with
    | ok q2 =>
      by_cases hq : q2.id = targetId
      · simp only [fetchLoop, if_pos hq] at h
        obtain rfl : q2 = q := Option.some.inj h
        exact ⟨hq, List.mem_cons_self _ _⟩
      · simp only [fetchLoop, if_neg hq] at h
        obtain ⟨h1, h2⟩ := ih q h
        exact ⟨h1, List.mem_cons_of_mem _ h2⟩
    | bad =>
      simp only [fetchLoop] at h
      obtain ⟨h1, h2⟩ := ih q h
      exact ⟨h1, List.mem_cons_of_mem _ h2⟩

/-- C6 counterexample: at a cycle boundary the shown-set is cleared (and
persisted) before the fetch runs, so an activation whose fetch fails with
not-found has still mutated rotation state — refuting the claim that no
rotation state is mutated. -/
theorem C6_boundary_mutation_counterexample :
    (∀ t : Int, getQuoteFromSD ⟨true, true, true, []⟩ t = none) ∧
    (displayRandomQuoteRun [1, 2] ⟨true, true, true, []⟩ 0
        ⟨[1, 2], -1, 1, 0⟩).2.shownQuoteIds = [] ∧
    (⟨[1, 2], -1, 1, 0⟩ : RotState).shownQuoteIds = [1, 2] := by
  refine ⟨fun t => rfl, by decide, rfl⟩

/-- C6 (amended): a fetch for an id absent from the catalog document returns
not-found; a record is returned only when full decoding succeeds and its id
equals the requested id exactly; and when the activation is not at a cycle
boundary and no carry-over id is pending, a failing fetch leaves the
rotation state completely unchanged (at a boundary, the pre-fetch reset may
already have cleared the shown-set). -/
theorem C6_fetch_not_found (doc : FetchDoc) (targetId : Int)
    (allQuoteIds : List Int) (choice : Nat) (s : RotState) :
    ((∀ q : QuoteData, FetchElem.ok q ∈ doc.elems → q.id ≠ targetId) →
        getQuoteFromSD doc targetId = none) ∧
    (∀ q : QuoteData, getQuoteFromSD doc targetId = some q →
        q.id = targetId ∧ FetchElem.ok q ∈ doc.elems) ∧
    (computeUnshown allQuoteIds s.shownQuoteIds ≠ [] →
      s.lastCycleQuoteId < 0 →
      getQuoteFromSD doc
        ((selectionPool allQuoteIds s).getD
          (choice % (selectionPool allQuoteIds s).length) 0) = none →
      (displayRandomQuoteRun allQuoteIds doc choice s).2 = s) := by
  refine ⟨fun h => ?_, fun q h => ?_, fun hne hlc hfetch => ?_⟩
  · unfold getQuoteFromSD
    split
    · rfl
    · split
      · rfl
      · split
        · rfl
        · exact fetchLoop_none_of_absent targetId doc.elems h
  · unfold getQuoteFromSD at h
    split at h
    · exact absurd h (by simp)
    · split at h
      · exact absurd h (by simp)
      · split at h
        · exact absurd h (by simp)
        · exact fetchLoop_some targetId doc.elems q h
  · have hids : allQuoteIds ≠ [] := by
      intro hnil
      exact hne (by simp [computeUnshown, hnil])
    have hguard : ¬(0 ≤ s.lastCycleQuoteId ∧
        1 < (computeUnshown allQuoteIds s.shownQuoteIds).length) := by
      intro hg
      omega
    simp only [selectionPool, cycleReset_not_covered hne, carryOverExclusion,
      if_neg hguard] at hfetch
    simp only [displayRandomQuoteRun, List.isEmpty_iff, hids, if_neg,
      cycleReset_not_covered hne, carryOverExclusion, if_neg hguard]
    rw [if_neg (by simpa [List.isEmpty_iff] using hids)]
    rw [hfetch]

/-- Closed witness for the amended C6: catalog `[1]`, empty document, fresh
state — the fetch fails and the state is untouched. -/
theorem C6_fetch_not_found_witness :
    (displayRandomQuoteRun [1] ⟨true, true, true, []⟩ 0 ⟨[], -1, 0, 0⟩).2
      = ⟨[], -1, 0, 0⟩ :=
  (C6_fetch_not_found ⟨true, true, true, []⟩ 1 [1] 0 ⟨[], -1, 0, 0⟩).2.2
    (by decide) (by decide) (by decide)

/-- C10: at a cycle boundary the recorded carry-over id is copied from the
RTC-retained `currentQuoteId` (not derived from the just-cleared shown
list); the scanner never produces id `0`, so the `0` recorded after a
boundary on the first refresh following a cold power-on makes the exclusion
a no-op; and the recorded value need not belong to the cycle that just
completed, as the concrete boundary with `currentQuoteId = 0` over the
catalog `[5, 7]` shows. -/
theorem C10_carry_over_from_session (allQuoteIds : List Int) (s : RotState)
    (hboundary : computeUnshown allQuoteIds s.shownQuoteIds = []) :
    (cycleReset allQuoteIds s).state.lastCycleQuoteId = s.currentQuoteId ∧
    (cycleReset allQuoteIds s).state.shownQuoteIds = [] ∧
    (∀ d : ScanDoc, (0 : Int) ∉ (scanQuoteIds d).2) ∧
    (∀ (u : List Int) (lc : Int), lc ∉ u → (carryOverExclusion u lc).1 = u) ∧
    ((cycleReset [5, 7] ⟨[5, 7], -1, 0, 3⟩).state.lastCycleQuoteId = 0 ∧
      (0 : Int) ∉ ([5, 7] : List Int) ∧
      (carryOverExclusion [5, 7] 0).1 = [5, 7]) := by
  refine ⟨?_, ?_, ?_, ?_, by decide⟩
  · rw [cycleReset_covered hboundary]
  · rw [cycleReset_covered hboundary]
  · intro d
    unfold scanQuoteIds
    split
    · simp
    · split
      · simp
      · split
        · simp
        · exact scanLoop_zero_not_mem d.elems d.terminated [] (by simp)
  · intro u lc h
    unfold carryOverExclusion
    split
    · simp [List.erase_of_not_mem h]
    · rfl

/-- Closed witness for C10: the boundary on catalog `[5, 7]` with session
variable `currentQuoteId = 0` records carry-over id `0`. -/
theorem C10_carry_over_from_session_witness :
    (cycleReset [5, 7] ⟨[5, 7], -1, 0, 3⟩).state.lastCycleQuoteId = 0 :=
  (C10_carry_over_from_session [5, 7] ⟨[5, 7], -1, 0, 3⟩ (by decide)).1

/-- C9 counterexample: in a successful activation the commit (push into the
shown-set, persist, counter increment) is executed before the rendering
loop, not after the record has been displayed — refuting the claim that the
commit happens only after the record has been successfully fetched *and
displayed*. -/
theorem C9_commit_precedes_render_counterexample :
    Event.commit 1 ∈ (displayRandomQuoteRun [1]
        ⟨true, true, true, [FetchElem.ok ⟨1, [], []⟩]⟩ 0 ⟨[], -1, 0, 0⟩).1 ∧
    Event.rendered 1 ∈ (displayRandomQuoteRun [1]
        ⟨true, true, true, [FetchElem.ok ⟨1, [], []⟩]⟩ 0 ⟨[], -1, 0, 0⟩).1 ∧
    List.indexOf (Event.commit 1) (displayRandomQuoteRun [1]
        ⟨true, true, true, [FetchElem.ok ⟨1, [], []⟩]⟩ 0 ⟨[], -1, 0, 0⟩).1 <
      List.indexOf (Event.rendered 1) (displayRandomQuoteRun [1]
        ⟨true, true, true, [FetchElem.ok ⟨1, [], []⟩]⟩ 0 ⟨[], -1, 0, 0⟩).1 := by
  decide

/-- C9 (amended): the commit happens only after the record has been
successfully fetched — a failing fetch produces no commit event, leaves the
lifetime counter and `currentQuoteId` unchanged and adds nothing to the
shown-set (which is either untouched or was already cleared by a
cycle-boundary reset earlier in the same activation) — but the commit
precedes the rendering, which has no failure path: a successful activation's
trace ends with selection, fetch, commit, render in that order. -/
theorem C9_commit_discipline (allQuoteIds : List Int) (doc : FetchDoc)
    (choice : Nat) (s : RotState) :
    (getQuoteFromSD doc ((selectionPool allQuoteIds s).getD
        (choice % (selectionPool allQuoteIds s).length) 0) = none →
      (∀ i : Int,
        Event.commit i ∉ (displayRandomQuoteRun allQuoteIds doc choice s).1) ∧
      (displayRandomQuoteRun allQuoteIds doc choice s).2.totalDisplayCount
        = s.totalDisplayCount ∧
      (displayRandomQuoteRun allQuoteIds doc choice s).2.currentQuoteId
        = s.currentQuoteId ∧
      ((displayRandomQuoteRun allQuoteIds doc choice s).2.shownQuoteIds
          = s.shownQuoteIds ∨
        (displayRandomQuoteRun allQuoteIds doc choice s).2.shownQuoteIds
          = [])) ∧
    (∀ q : QuoteData, allQuoteIds ≠ [] →
      getQuoteFromSD doc ((selectionPool allQuoteIds s).getD
        (choice % (selectionPool allQuoteIds s).length) 0) = some q →
      ∃ p : List Event, (displayRandomQuoteRun allQuoteIds doc choice s).1
        = p ++ [Event.selected ((selectionPool allQuoteIds s).getD
              (choice % (selectionPool allQuoteIds s).length) 0),
            Event.fetched ((selectionPool allQuoteIds s).getD
              (choice % (selectionPool allQuoteIds s).length) 0),
            Event.commit q.id, Event.rendered q.id]) := by
  constructor
  · intro hfetch
    by_cases hids : allQuoteIds = []
    · subst hids
      simp [displayRandomQuoteRun]
    · have hne : ¬(allQuoteIds.isEmpty = true) := by
        simpa [List.isEmpty_iff] using hids
      simp only [selectionPool] at hfetch
      simp only [displayRandomQuoteRun, if_neg hne]
      rw [hfetch]
      refine ⟨?_, ?_, ?_, ?_⟩
      · intro i
        by_cases hr : (cycleReset allQuoteIds s).didReset <;>
          simp [hr]
      · by_cases hcov : computeUnshown allQuoteIds s.shownQuoteIds = []
        · rw [cycleReset_covered hcov]
        · rw [cycleReset_not_covered hcov]
      · by_cases hcov : computeUnshown allQuoteIds s.shownQuoteIds = []
        · rw [cycleReset_covered hcov]
        · rw [cycleReset_not_covered hcov]
      · by_cases hcov : computeUnshown allQuoteIds s.shownQuoteIds = []
        · right
          rw [cycleReset_covered hcov]
        · left
          rw [cycleReset_not_covered hcov]
  · intro q hids hfetch
    have hne : ¬(allQuoteIds.isEmpty = true) := by
      simpa [List.isEmpty_iff] using hids
    simp only [selectionPool] at hfetch ⊢
    refine ⟨if (cycleReset allQuoteIds s).didReset
      then [Event.cycleResetEv] else [], ?_⟩
    simp only [displayRandomQuoteRun, if_neg hne]
    rw [hfetch]

/-- Closed witness for the amended C9: a failing fetch leaves the lifetime
counter at its previous value. -/
theorem C9_commit_discipline_witness :
    (displayRandomQuoteRun [1] ⟨true, true, true, []⟩ 0
        ⟨[], -1, 5, 7⟩).2.totalDisplayCount = 7 :=
  ((C9_commit_discipline [1] ⟨true, true, true, []⟩ 0
      ⟨[], -1, 5, 7⟩).1 (by decide)).2.1

theorem digitChar_props (d : Nat) (h : d < 10) :
    digitVal (digitChar d) = some d ∧ isSpaceChar (digitChar d) = false ∧
    digitChar d ≠ '-' ∧ digitChar d ≠ '+' ∧ digitChar d ≠ ',' := by
  interval_cases d <;>
    exact ⟨by decide, by decide, by decide, by decide, by decide⟩

theorem natToDigits_mem (n : Nat) :
    ∀ c ∈ natToDigits n, ∃ d, d < 10 ∧ c = digitChar d := by
  induction n using Nat.strong_induction_on with
  | _ n ih =>
    rw [natToDigits]
    split
    · rename_i h
      intro c hc
      exact ⟨n, h, List.mem_singleton.mp hc⟩
    · rename_i h
      intro c hc
      rcases List.mem_append.mp hc with hc | hc
      · exact ih (n / 10) (Nat.div_lt_self (by omega) (by omega)) c hc
      · exact ⟨n % 10, Nat.mod_lt _ (by omega), List.mem_singleton.mp hc⟩

theorem natToDigits_ne_nil (n : Nat) : natToDigits n ≠ [] := by
  rw [natToDigits]
  split <;> simp

theorem atolDigits_append (a b : List Char) :
    (∀ c ∈ a, (digitVal c).isSome) → ∀ acc : Nat,
    atolDigits (a ++ b) acc = atolDigits b (atolDigits a acc) := by
  induction a with
  | nil => intro _ acc; rfl
  | cons c cs ih =>
    intro h acc
    have hc : (digitVal c).isSome := h c (List.mem_cons_self _ _)
    obtain ⟨d, hd⟩ := Option.isSome_iff_exists.mp hc
    simp only [List.cons_append, atolDigits, hd]
    exact ih (fun c2 hc2 => h c2 (List.mem_cons_of_mem _ hc2)) _

theorem atolDigits_natToDigits (n : Nat) :
    ∀ acc : Nat, atolDigits (natToDigits n) acc
      = acc * 10 ^ (natToDigits n).length + n := by
  induction n using Nat.strong_induction_on with
  | _ n ih =>
    intro acc
    rw [natToDigits]
    split
    · rename_i h
      have hd := (digitChar_props n h).1
      simp [atolDigits, hd]
    · rename_i h
      have hlt : n / 10 < n := Nat.div_lt_self (by omega) (by omega)
      have hdigits : ∀ c ∈ natToDigits (n / 10), (digitVal c).isSome := by
        intro c hc
        obtain ⟨d, hd, rfl⟩ := natToDigits_mem (n / 10) c hc
        simp [(digitChar_props d hd).1]
      rw [atolDigits_append _ _ hdigits acc]
      have hmod := (digitChar_props (n % 10) (Nat.mod_lt _ (by omega))).1
      simp only [atolDigits, hmod]
      rw [ih (n / 10) hlt acc]
      have hlen : (natToDigits (n / 10) ++ [digitChar (n % 10)]).length
          = (natToDigits (n / 10)).length + 1 := by simp
      rw [hlen, pow_succ]
      have := Nat.div_add_mod n 10
      ring_nf
      omega

theorem strToInt_minus_cons (ds : List Char) :
    strToInt ('-' :: ds) = -(atolDigits ds 0 : Int) := by
  unfold strToInt
  have hdrop : ('-' :: ds).dropWhile isSpaceChar = '-' :: ds := by
    rw [List.dropWhile_cons_of_neg]
    decide
  rw [hdrop]
  show (if ('-' : Char) = '-' then -(atolDigits ds 0 : Int)
    else if ('-' : Char) = '+' then (atolDigits ds 0 : Int)
    else (atolDigits ('-' :: ds) 0 : Int)) = -(atolDigits ds 0 : Int)
  rw [if_pos rfl]

theorem strToInt_digit_cons (d : Nat) (hd : d < 10) (rest : List Char) :
    strToInt (digitChar d :: rest) = (atolDigits (digitChar d :: rest) 0 : Int) := by
  obtain ⟨hval, hspace, hminus, hplus, _⟩ := digitChar_props d hd
  unfold strToInt
  have hdrop : (digitChar d :: rest).dropWhile isSpaceChar
      = digitChar d :: rest := by
    rw [List.dropWhile_cons_of_neg]
    simp [hspace]
  rw [hdrop]
  show (if digitChar d = '-' then -(atolDigits rest 0 : Int)
    else if digitChar d = '+' then (atolDigits rest 0 : Int)
    else (atolDigits (digitChar d :: rest) 0 : Int))
    = (atolDigits (digitChar d :: rest) 0 : Int)
  rw [if_neg hminus, if_neg hplus]

theorem strToInt_intToStr (i : Int) : strToInt (intToStr i) = i := by
  unfold intToStr
  split
  · rename_i hneg
    rw [strToInt_minus_cons, atolDigits_natToDigits i.natAbs 0]
    omega
  · rename_i hpos
    cases hnd : natToDigits i.toNat with
    | nil => exact absurd hnd (natToDigits_ne_nil _)
    | cons c rest =>
      obtain ⟨d, hd, rfl⟩ := natToDigits_mem i.toNat c
        (by rw [hnd]; exact List.mem_cons_self _ _)
      rw [strToInt_digit_cons d hd rest, ← hnd,
        atolDigits_natToDigits i.toNat 0]
      omega

theorem intToStr_comma_not_mem (i : Int) : ',' ∉ intToStr i := by
  unfold intToStr
  split
  · intro hmem
    rcases List.mem_cons.mp hmem with h | h
    · exact absurd h.symm (by decide)
    · obtain ⟨d, hd, heq⟩ := natToDigits_mem _ _ h
      exact (digitChar_props d hd).2.2.2.2 heq.symm
  · intro hmem
    obtain ⟨d, hd, heq⟩ := natToDigits_mem _ _ hmem
    exact (digitChar_props d hd).2.2.2.2 heq.symm

theorem intToStr_ne_nil (i : Int) : intToStr i ≠ [] := by
  unfold intToStr
  split
  · simp
  · exact natToDigits_ne_nil _

theorem intToStr_zero : intToStr 0 = ['0'] := by
  unfold intToStr
  rw [if_neg (by norm_num)]
  show natToDigits (0 : Int).toNat = ['0']
  rw [Int.toNat_zero, natToDigits]
  norm_num [digitChar]

theorem parseSegment_intToStr (i : Int) : parseSegment (intToStr i) = some i := by
  unfold parseSegment
  rw [if_neg (by simpa [List.isEmpty_iff] using intToStr_ne_nil i)]
  simp only [strToInt_intToStr]
  by_cases hi : i = 0
  · subst hi
    rw [if_pos (Or.inr intToStr_zero)]
  · rw [if_pos (Or.inl hi)]

/-- C5: encoding the shown-set with `saveShownQuotes` and decoding it with
`loadShownQuotes` yields the original list exactly — hence the same set of
ids for every insertion order used when encoding — and the empty string
decodes to the empty set. -/
theorem C5_encode_decode_round_trip (l : List Int) :
    loadShownQuotes (saveShownQuotes l) = l ∧
    (loadShownQuotes (saveShownQuotes l)).toFinset = l.toFinset ∧
    loadShownQuotes [] = [] := by
  have hmain : loadShownQuotes (saveShownQuotes l) = l := by
    cases l with
    | nil => rfl
    | cons x xs =>
      unfold loadShownQuotes saveShownQuotes
      have hsplit :
          ((List.intercalate [','] ((x :: xs).map intToStr)).splitOn ',')
            = (x :: xs).map intToStr := by
        apply List.splitOn_intercalate
        · intro seg hseg hcin
          obtain ⟨y, _, rfl⟩ := List.mem_map.mp hseg
          exact intToStr_comma_not_mem y hcin
        · simp
      have hne : List.intercalate [','] ((x :: xs).map intToStr) ≠ [] := by
        intro hnil
        rw [hnil, List.splitOn_nil] at hsplit
        have hx : ([] : List Char) = intToStr x := by
          have := hsplit
          simp only [List.map_cons] at this
          exact (List.cons.injEq _ _ _ _).mp this |>.1
        exact intToStr_ne_nil x hx.symm
      rw [if_neg (by simpa [List.isEmpty_iff] using hne), hsplit]
      have hfm : ∀ ys : List Int, (ys.map intToStr).filterMap parseSegment = ys := by
        intro ys
        induction ys with
        | nil => rfl
        | cons y ys2 ih =>
          simp only [List.map_cons, List.filterMap_cons, parseSegment_intToStr, ih]
      exact hfm (x :: xs)
  exact ⟨hmain, by rw [hmain], rfl⟩

/-- C3 counterexample: a button wake with `nextQuoteEpoch` 30 seconds in
the future falls below the 60-second floor, so the code arms the full
refresh interval, not the 30-second remainder the claim requires. -/
theorem C3_thirty_seconds_counterexample :
    buttonWakeRemaining 1000 1030 = REFRESH_INTERVAL ∧
    (1030 - 1000 : Int) = 30 ∧ REFRESH_INTERVAL ≠ 30 := by
  decide

/-- C3 (amended): a button wake with `nextQuoteEpoch` at least 60 seconds
in the future re-arms exactly the remainder `nextQuoteEpoch - now`; a
remainder below the 60-second floor — including the 30-second scenario —
or a `nextQuoteEpoch` already in the past re-arms the full refresh
interval.  The armed duration is the one carried by the deep-sleep event of
the button-wake trace. -/
theorem C3_button_wake_rearm (now nextQuoteEpoch : Int) :
    (nextQuoteEpoch ≤ now →
      buttonWakeRemaining now nextQuoteEpoch = REFRESH_INTERVAL) ∧
    (now + 60 ≤ nextQuoteEpoch →
      buttonWakeRemaining now nextQuoteEpoch = (nextQuoteEpoch - now).toNat) ∧
    (∀ (env : SetupEnv) (sess : SessionState) (pers : PersistedState),
      ¬(1 < env.batteryVoltage ∧ env.batteryVoltage < BAT_CRITICAL) →
      env.wakeReason = WakeReason.ext0 →
      setupRun env sess pers = Event.readBattery ::
        (if env.sdOk then [Event.audioReplay sess.currentQuoteId] else []) ++
        [Event.deepSleep (buttonWakeRemaining env.now sess.nextQuoteEpoch)
          true true]) := by
  refine ⟨?_, ?_, ?_⟩
  · intro h
    simp only [buttonWakeRemaining]
    rw [if_neg (show ¬now < nextQuoteEpoch by omega)]
    norm_num
  · intro h
    simp only [buttonWakeRemaining]
    rw [if_pos (show now < nextQuoteEpoch by omega)]
    rw [if_neg (show ¬(nextQuoteEpoch - now).toNat < 60 by omega)]
  · intro env sess pers hbat hwake
    unfold setupRun
    rw [if_neg hbat, if_pos hwake]
    simp

/-- Closed witness for the amended C3: a past epoch re-arms the full
interval and a 120-second remainder is armed exactly. -/
theorem C3_button_wake_rearm_witness :
    buttonWakeRemaining 1000 900 = REFRESH_INTERVAL ∧
    buttonWakeRemaining 1000 1120 = 120 := by
  refine ⟨(C3_button_wake_rearm 1000 900).1 (by decide), ?_⟩
  rw [(C3_button_wake_rearm 1000 1120).2.1 (by decide)]
  decide

/-- C8 counterexample: a battery reading of 0.5 V is below the critical
threshold, yet the code does not halt (readings at or below 1.0 V are
treated as no battery attached) and the activation goes on to scan the
catalog — refuting "whenever it is below the critical threshold". -/
theorem C8_low_voltage_no_halt_counterexample :
    lowBatteryEnv.batteryVoltage < BAT_CRITICAL ∧
    Event.haltNoWakeSources ∉ setupRun lowBatteryEnv ⟨0, 0, -1⟩ ⟨[], 0⟩ ∧
    Event.catalogScanned [1] ∈ setupRun lowBatteryEnv ⟨0, 0, -1⟩ ⟨[], 0⟩ := by
  have hbat : ¬(1 < lowBatteryEnv.batteryVoltage ∧
      lowBatteryEnv.batteryVoltage < BAT_CRITICAL) := by
    rintro ⟨h, _⟩
    norm_num [lowBatteryEnv] at h
  refine ⟨by norm_num [lowBatteryEnv, BAT_CRITICAL], ?_, ?_⟩
  · unfold setupRun
    rw [if_neg hbat]
    decide
  · unfold setupRun
    rw [if_neg hbat]
    decide

/-- C8 (amended): on every activation the battery level is read first;
whenever the reading is above the 1.0 V battery-present floor and below the
critical threshold, the machine unconditionally halts as its second and
last action — before any catalog-reader, rotation-tracker or selection
activity — and that halt powers down with no wake sources armed. -/
theorem C8_battery_first_halt (env : SetupEnv) (sess : SessionState)
    (pers : PersistedState) :
    (setupRun env sess pers).head? = some Event.readBattery ∧
    (1 < env.batteryVoltage → env.batteryVoltage < BAT_CRITICAL →
      setupRun env sess pers
        = [Event.readBattery, Event.haltNoWakeSources]) := by
  constructor
  · rfl
  · intro h1 h2
    unfold setupRun
    rw [if_pos ⟨h1, h2⟩]

/-- Closed witness for the amended C8: a 3.0 V reading halts immediately. -/
theorem C8_battery_first_halt_witness :
    setupRun
        ⟨WakeReason.powerOn, 3, 0, true, ⟨true, true, true, [], true⟩,
          ⟨true, true, true, []⟩, 0, false⟩
        ⟨0, 0, -1⟩ ⟨[], 0⟩
      = [Event.readBattery, Event.haltNoWakeSources] :=
  (C8_battery_first_halt _ _ _).2 (by norm_num) (by norm_num [BAT_CRITICAL])

end LaskaDisplay
